import Mathlib

/-!
Shallow embedding of the sculpt smoothing core of
`src/source/blender/editors/sculpt_paint/sculpt_smooth.c`.

Floats are modelled as exact rationals (`ℚ`); the float constants that
appear in the source (`0.5f`, `0.25f`, `1.0f`) are exactly representable,
so the control flow of the embedded functions matches the C control flow
on these values.  `normalize_v3` involves a square root, which has no
exact rational counterpart; it is taken as an uninterpreted parameter
`nrm : Vec3 → Vec3` wherever the source calls it (no verified property
below depends on its value).
-/

/-- Three-component float vector (`float[3]`), modelled over `ℚ`. -/
structure Vec3 where
  x : ℚ
  y : ℚ
  z : ℚ
deriving DecidableEq, Repr

namespace Vec3

/-- Source: `zero_v3`. -/
def zero : Vec3 := ⟨0, 0, 0⟩

instance : Zero Vec3 := ⟨zero⟩

/-- Source: `add_v3_v3v3`. -/
def add (a b : Vec3) : Vec3 := ⟨a.x + b.x, a.y + b.y, a.z + b.z⟩

instance : Add Vec3 := ⟨add⟩

/-- Source: `sub_v3_v3v3`. -/
def sub (a b : Vec3) : Vec3 := ⟨a.x - b.x, a.y - b.y, a.z - b.z⟩

instance : Sub Vec3 := ⟨sub⟩

/-- Source: `mul_v3_v3fl` / `mul_v3_fl`; scale a vector by a scalar. -/
def smul (s : ℚ) (a : Vec3) : Vec3 := ⟨s * a.x, s * a.y, s * a.z⟩

instance : SMul ℚ Vec3 := ⟨smul⟩

/-- Source: `dot_v3v3`. -/
def dot (a b : Vec3) : ℚ := a.x * b.x + a.y * b.y + a.z * b.z

theorem add_def (a b : Vec3) : a + b = ⟨a.x + b.x, a.y + b.y, a.z + b.z⟩ := rfl

theorem sub_def (a b : Vec3) : a - b = ⟨a.x - b.x, a.y - b.y, a.z - b.z⟩ := rfl

theorem smul_def (s : ℚ) (a : Vec3) : s • a = ⟨s * a.x, s * a.y, s * a.z⟩ := rfl

theorem zero_def : (0 : Vec3) = ⟨0, 0, 0⟩ := rfl

theorem zero_smul (a : Vec3) : (0 : ℚ) • a = 0 := by
  simp [smul_def, zero_def]

theorem add_zero_smul (a b : Vec3) : a + (0 : ℚ) • b = a := by
  cases a; simp [smul_def, add_def, zero_def]

end Vec3

/-- Four-component float vector (`float[4]`, colors), modelled over `ℚ`. -/
structure Vec4 where
  x : ℚ
  y : ℚ
  z : ℚ
  w : ℚ
deriving DecidableEq, Repr

namespace Vec4

def zero : Vec4 := ⟨0, 0, 0, 0⟩

instance : Zero Vec4 := ⟨zero⟩

/-- Source: `add_v4_v4`. -/
def add (a b : Vec4) : Vec4 := ⟨a.x + b.x, a.y + b.y, a.z + b.z, a.w + b.w⟩

instance : Add Vec4 := ⟨add⟩

/-- Source: `mul_v4_v4fl`. -/
def smul (s : ℚ) (a : Vec4) : Vec4 := ⟨s * a.x, s * a.y, s * a.z, s * a.w⟩

instance : SMul ℚ Vec4 := ⟨smul⟩

end Vec4

/-- The `CLAMP(x, lo, hi)` macro / `clamp_f`. -/
def clamp_f (x lo hi : ℚ) : ℚ := if x < lo then lo else if x > hi then hi else x

theorem clamp_f_le (x lo hi : ℚ) (hlo : lo ≤ hi) : clamp_f x lo hi ≤ hi := by
  unfold clamp_f
  split
  · exact hlo
  · split
    · exact le_refl hi
    · next h => exact le_of_not_lt h

theorem clamp_f_ge (x lo hi : ℚ) (hlo : lo ≤ hi) : lo ≤ clamp_f x lo hi := by
  unfold clamp_f
  split
  · exact le_refl lo
  · next h =>
    split
    · exact hlo
    · exact le_of_not_lt h

theorem clamp_f_of_mem (x lo hi : ℚ) (h1 : lo ≤ x) (h2 : x ≤ hi) :
    clamp_f x lo hi = x := by
  unfold clamp_f
  rw [if_neg (not_lt.mpr h1), if_neg (not_lt.mpr h2)]

/-- The C cast `(int)q`: truncation toward zero. -/
def cIntOfRat (q : ℚ) : ℤ := if 0 ≤ q then ⌊q⌋ else -⌊-q⌋

theorem cIntOfRat_nonneg (q : ℚ) (h : 0 ≤ q) : cIntOfRat q = ⌊q⌋ := by
  unfold cIntOfRat
  rw [if_pos h]

/-! ## `SCULPT_smooth` iteration schedule (sculpt_smooth.c:502-531)

`max_iterations = 4`, `fract = 1/max_iterations`,
`count = (int)(bstrength * max_iterations)`,
`last = max_iterations * (bstrength - count * fract)`,
with `bstrength` clamped to `[0,1]` beforehand; the loop runs
`iteration = 0..count` with per-iteration strength `1.0` for
`iteration != count` and `last` for `iteration == count`. -/

/-- Source: `max_iterations` in `SCULPT_smooth`. -/
def max_iterations : ℕ := 4

/-- Source: `count = (int)(bstrength * max_iterations)` on the clamped strength. -/
def smoothCount (bstrength : ℚ) : ℕ :=
  (cIntOfRat (clamp_f bstrength 0 1 * (max_iterations : ℚ))).toNat

/-- Source: `last = max_iterations * (bstrength - count * fract)` on the clamped
strength, with `fract = 1 / max_iterations`. -/
def smoothLast (bstrength : ℚ) : ℚ :=
  (max_iterations : ℚ) *
    (clamp_f bstrength 0 1 - (smoothCount bstrength : ℚ) * (1 / (max_iterations : ℚ)))

/-- Per-iteration applied strength:
`(iteration != count) ? 1.0f : last`. -/
def iterStrength (bstrength : ℚ) (iteration : ℕ) : ℚ :=
  if iteration ≠ smoothCount bstrength then 1 else smoothLast bstrength

/-- The list of per-iteration strengths over `iteration = 0..count`. -/
def smoothStrengths (bstrength : ℚ) : List ℚ :=
  (List.range (smoothCount bstrength + 1)).map (iterStrength bstrength)

/-! ## Mesh session model

`SculptSession` abstracts the three mesh backends exactly at the interface
the smoothing code consumes: neighbor enumeration
(`SCULPT_VERTEX_NEIGHBORS_ITER_BEGIN/END`), vertex coordinates
(`SCULPT_vertex_co_get`), mask (`SCULPT_vertex_mask_get`), color
(`SCULPT_vertex_color_get`) and the cached boundary flag
(`SCULPT_vertex_is_boundary`).  A `SculptIdx` is a natural number. -/

/-- Vertex handle (`SculptIdx`). -/
abbrev SculptIdx := ℕ

/-- The slice of `SculptSession` state the smoothing kernels read. -/
structure SculptSession where
  /-- `SCULPT_VERTEX_NEIGHBORS_ITER_BEGIN/END`: the finite neighbor list. -/
  neighbors : SculptIdx → List SculptIdx
  /-- `SCULPT_vertex_co_get`. -/
  co : SculptIdx → Vec3
  /-- `SCULPT_vertex_mask_get`. -/
  mask : SculptIdx → ℚ
  /-- `SCULPT_vertex_color_get`. -/
  color : SculptIdx → Vec4
  /-- `SCULPT_vertex_is_boundary` (cached boundary flag). -/
  is_boundary : SculptIdx → Bool

/-! ## Averaging primitives (sculpt_smooth.c:71-109, 208-264) -/

/-- Source: `SCULPT_neighbor_coords_average` (sculpt_smooth.c:208-226):
accumulate neighbor coordinates and divide by the count; with no
neighbors return the vertex's own coordinate. -/
def SCULPT_neighbor_coords_average (ss : SculptSession) (index : SculptIdx) : Vec3 :=
  let avg := (ss.neighbors index).foldl (fun a ni => a + ss.co ni) 0
  let total := (ss.neighbors index).length
  if total > 0 then ((1 : ℚ) / (total : ℚ)) • avg
  else ss.co index

/-- Source: `SCULPT_neighbor_mask_average` (sculpt_smooth.c:228-244). -/
def SCULPT_neighbor_mask_average (ss : SculptSession) (index : SculptIdx) : ℚ :=
  let avg := (ss.neighbors index).foldl (fun a ni => a + ss.mask ni) 0
  let total := (ss.neighbors index).length
  if total > 0 then avg / (total : ℚ)
  else ss.mask index

/-- Source: `SCULPT_neighbor_color_average` (sculpt_smooth.c:246-264). -/
def SCULPT_neighbor_color_average (ss : SculptSession) (index : SculptIdx) : Vec4 :=
  let avg := (ss.neighbors index).foldl (fun a ni => a + ss.color ni) 0
  let total := (ss.neighbors index).length
  if total > 0 then ((1 : ℚ) / (total : ℚ)) • avg
  else ss.color index

/-- The accumulation loop of `SCULPT_neighbor_coords_average_interior`
(sculpt_smooth.c:79-94): running `(avg, total)`; a boundary vertex only
accumulates boundary neighbors, an interior vertex accumulates all. -/
def interiorAccum (ss : SculptSession) (index : SculptIdx) : Vec3 × ℕ :=
  (ss.neighbors index).foldl
    (fun acc ni =>
      if ss.is_boundary index then
        if ss.is_boundary ni then (acc.1 + ss.co ni, acc.2 + 1) else acc
      else (acc.1 + ss.co ni, acc.2 + 1))
    (0, 0)

/-- Source: `SCULPT_neighbor_coords_average_interior` (sculpt_smooth.c:71-109):
boundary-aware neighbor average; vertices with `neighbor_count <= 2`
(corners) and vertices whose filtered total is `0` are returned
unchanged. -/
def SCULPT_neighbor_coords_average_interior (ss : SculptSession) (index : SculptIdx) : Vec3 :=
  let acc := interiorAccum ss index
  let neighbor_count := (ss.neighbors index).length
  if neighbor_count ≤ 2 then ss.co index
  else if acc.2 = 0 then ss.co index
  else ((1 : ℚ) / (acc.2 : ℚ)) • acc.1

/-! ## Directional four-neighbor average (sculpt_smooth.c:113-203)

A bmesh/trimesh vertex is embedded as its coordinate `co`, its normal
`no`, and the list of its incident edges; for each incident edge the
source resolves the opposite endpoint via `(e->v1 == v) ? e->v2 : e->v1`,
so the embedding carries the opposite endpoint's coordinate directly,
together with the edge's `BM_edge_is_boundary` / `TM_edge_is_boundary`
flag. -/

/-- One incident edge of the vertex, as the four-neighbor loop consumes
it: boundary flag plus the opposite endpoint's coordinate. -/
structure IncidentEdge where
  is_boundary : Bool
  other_co : Vec3
deriving DecidableEq, Repr

/-- Model of `BMVert` / `TMVert` as read by the four-neighbor average: coordinate,
normal, incident edge list. -/
structure FourVert where
  co : Vec3
  no : Vec3
  edges : List IncidentEdge

/-- The shared edge loop of `SCULPT_bmesh_four_neighbor_average` and
`SCULPT_trimesh_four_neighbor_average` (sculpt_smooth.c:122-155 and
166-202; the two C bodies are textually identical up to the edge
iterator).  `nrm` stands for the float `normalize_v3`.  Encountering a
boundary edge returns `v.co` immediately; otherwise accumulate
`avg_co += fac * other_co`, `tot_co += fac` with
`fac = (dot(vec, direction)^2 - 0.5)^2` on the normalized in-plane edge
vector, then divide and apply the volume-preservation projection when
`tot_co > 0`, else zero the output. -/
def fourNeighborLoop (nrm : Vec3 → Vec3) (vco vno direction : Vec3) :
    List IncidentEdge → Vec3 → ℚ → Vec3
  | [], avg_co, tot_co =>
    if tot_co > 0 then
      let avg0 := ((1 : ℚ) / tot_co) • avg_co
      let avg1 := avg0 - vco
      let vec := (Vec3.dot avg1 vno) • vno
      (avg1 - vec) + vco
    else 0
  | e :: rest, avg_co, tot_co =>
    if e.is_boundary then vco
    else
      let vec0 := (e.other_co - vco) + (-(Vec3.dot (e.other_co - vco) vno)) • vno
      let vec := nrm vec0
      let fac0 := Vec3.dot vec direction
      let fac1 := fac0 * fac0 - 1 / 2
      let fac := fac1 * fac1
      fourNeighborLoop nrm vco vno direction rest (avg_co + fac • e.other_co) (tot_co + fac)

/-- Source: `SCULPT_bmesh_four_neighbor_average` (sculpt_smooth.c:113-156). -/
def SCULPT_bmesh_four_neighbor_average (nrm : Vec3 → Vec3) (direction : Vec3)
    (v : FourVert) : Vec3 :=
  fourNeighborLoop nrm v.co v.no direction v.edges 0 0

/-- Source: `SCULPT_trimesh_four_neighbor_average` (sculpt_smooth.c:160-203);
its body is the same loop over `v->edges.items`. -/
def SCULPT_trimesh_four_neighbor_average (nrm : Vec3 → Vec3) (direction : Vec3)
    (v : FourVert) : Vec3 :=
  fourNeighborLoop nrm v.co v.no direction v.edges 0 0

/-- The total weight `tot_co` the loop would accumulate over a list of
non-boundary edges (for stating the degenerate-weight property). -/
def fourNeighborTotWeight (nrm : Vec3 → Vec3) (vco vno direction : Vec3) :
    List IncidentEdge → ℚ
  | [] => 0
  | e :: rest =>
    let vec0 := (e.other_co - vco) + (-(Vec3.dot (e.other_co - vco) vno)) • vno
    let vec := nrm vec0
    let fac0 := Vec3.dot vec direction
    let fac1 := fac0 * fac0 - 1 / 2
    let fac := fac1 * fac1
    fac + fourNeighborTotWeight nrm vco vno direction rest

/-! ## Surface (HC) smoothing steps (sculpt_smooth.c:568-610) -/

/-- Source: `SCULPT_surface_smooth_laplacian_step` (sculpt_smooth.c:568-586).
Returns the pair `(disp, laplacian_disp[v_index])`: the C function
writes `laplacian_disp[v_index] = laplacian_smooth_co - d` with
`d = alpha * origco + (1 - alpha) * co`, and outputs
`disp = laplacian_smooth_co - co`. -/
def SCULPT_surface_smooth_laplacian_step (ss : SculptSession) (co : Vec3)
    (v_index : SculptIdx) (origco : Vec3) (alpha : ℚ) : Vec3 × Vec3 :=
  let laplacian_smooth_co := SCULPT_neighbor_coords_average ss v_index
  let weigthed_o := alpha • origco
  let weigthed_q := (1 - alpha) • co
  let d := weigthed_o + weigthed_q
  (laplacian_smooth_co - co, laplacian_smooth_co - d)

/-- The position update done by
`SCULPT_do_surface_smooth_brush_laplacian_task_cb_ex`
(sculpt_smooth.c:645-653): `co += disp * clamp_f(fade, 0, 1)`. -/
def surfaceSmoothLaplacianUpdateCo (ss : SculptSession) (co : Vec3)
    (v_index : SculptIdx) (origco : Vec3) (alpha fade : ℚ) : Vec3 :=
  co + clamp_f fade 0 1 • (SCULPT_surface_smooth_laplacian_step ss co v_index origco alpha).1

/-- Source: `SCULPT_surface_smooth_displace_step` (sculpt_smooth.c:588-610):
average `laplacian_disp` over the neighbors, blend with the vertex's
own `laplacian_disp` by `beta`, scale by the clamped fade and subtract
from `co`; with no neighbors `co` is left untouched.  Returns the new
`co`. -/
def SCULPT_surface_smooth_displace_step (ss : SculptSession) (co : Vec3)
    (laplacian_disp : SculptIdx → Vec3) (v_index : SculptIdx)
    (beta fade : ℚ) : Vec3 :=
  let b_avg := (ss.neighbors v_index).foldl (fun a ni => a + laplacian_disp ni) 0
  let total := (ss.neighbors v_index).length
  if total > 0 then
    let b0 := ((1 - beta) / (total : ℚ)) • b_avg
    let b1 := b0 + beta • laplacian_disp v_index
    let b2 := clamp_f fade 0 1 • b1
    co - b2
  else co

/-! ## Smooth brush kernel and orchestrator (sculpt_smooth.c:435-550)

The brush test (`sculpt_brush_test_sq_fn`) and the falloff evaluator
(`SCULPT_brush_strength_factor`) are external collaborators (spec §6);
they enter the embedding as the parameters `test : Vec3 → Bool` and
`factor : SculptIdx → ℚ`. -/

/-- Modelled from the spec: `SCULPT_clip` (defined in sculpt.c, which is
not part of the sampled sources).  The spec describes the kernel as
mutating vertex positions to the computed target (§2 data flow, §4.6)
and mentions no axis-clip planes, so the modelled `SCULPT_clip` writes
the computed target `val` to the position. -/
def SCULPT_clip (co val : Vec3) : Vec3 := val

/-- Per-vertex result of one `do_smooth_brush_task_cb_ex` kernel
invocation (sculpt_smooth.c:435-488): given the iteration strength
(`data->strength`), returns the vertex's `(co, mask)` after the body.
The kernel clamps the strength to `[0,1]`, computes
`fade = bstrength * factor`, and then either smooths the mask (with a
final clamp of the stored mask to `[0,1]`) or moves the coordinate
toward the boundary-aware interior average through `SCULPT_clip`.
Vertices failing the brush test are untouched. -/
def smoothBrushVertex (test : Vec3 → Bool) (factor : SculptIdx → ℚ)
    (ss : SculptSession) (strength : ℚ) (smooth_mask : Bool)
    (v : SculptIdx) : Vec3 × ℚ :=
  let bstrength := clamp_f strength 0 1
  if test (ss.co v) then
    let fade := bstrength * factor v
    if smooth_mask then
      let val := (SCULPT_neighbor_mask_average ss v - ss.mask v) * (fade * bstrength)
      (ss.co v, clamp_f (ss.mask v + val) 0 1)
    else
      let avg := SCULPT_neighbor_coords_average_interior ss v
      let val0 := avg - ss.co v
      let val := ss.co v + fade • val0
      (SCULPT_clip (ss.co v) val, ss.mask v)
  else (ss.co v, ss.mask v)

/-- One dispatch of the smooth kernel over all vertices
(`BLI_task_parallel_range` over the node batches, sculpt_smooth.c:542-544);
node batches partition the vertices disjointly (spec §5), so the
dispatch is one simultaneous update of every vertex's `(co, mask)`. -/
def smoothMeshStep (test : Vec3 → Bool) (factor : SculptIdx → ℚ)
    (strength : ℚ) (smooth_mask : Bool) (ss : SculptSession) : SculptSession :=
  { ss with
    co := fun v => (smoothBrushVertex test factor ss strength smooth_mask v).1
    mask := fun v => (smoothBrushVertex test factor ss strength smooth_mask v).2 }

/-- Model of `PBVHType` (the three mesh backends plus grids). -/
inductive PBVHType where
  | faces
  | grids
  | bmesh
  | trimesh
deriving DecidableEq, Repr

/-- The iteration loop of `SCULPT_smooth` (sculpt_smooth.c:530-549):
run the kernel for `iteration = 0..count` with strength
`iterStrength`. -/
def smoothIterLoop (test : Vec3 → Bool) (factor : SculptIdx → ℚ)
    (bstrength : ℚ) (smooth_mask : Bool) (ss : SculptSession) : SculptSession :=
  (List.range (smoothCount bstrength + 1)).foldl
    (fun s k => smoothMeshStep test factor (iterStrength bstrength k) smooth_mask s) ss

/-- Source: `SCULPT_smooth` (sculpt_smooth.c:492-550): clamp the strength,
compute `count`/`last`; on a `PBVH_FACES` mesh with no `ss->pmap`
report the assertion `"sculpt smooth: pmap missing"` and return before
dispatching anything; otherwise run the iteration loop.  The result is
`(assertion_failed, final_session)`. -/
def SCULPT_smooth (pbvh_type : PBVHType) (pmap_present : Bool)
    (test : Vec3 → Bool) (factor : SculptIdx → ℚ)
    (bstrength : ℚ) (smooth_mask : Bool) (ss : SculptSession) :
    Bool × SculptSession :=
  if pbvh_type = PBVHType.faces ∧ pmap_present = false then (true, ss)
  else (false, smoothIterLoop test factor bstrength smooth_mask ss)

/-! ## Theorems -/

theorem sum_map_range_one (n : ℕ) (f : ℕ → ℚ) (h : ∀ k < n, f k = 1) :
    ((List.range n).map f).sum = (n : ℚ) := by
  induction n with
  | zero => simp
  | succ m ih =>
    rw [List.range_succ, List.map_append, List.sum_append]
    rw [ih (fun k hk => h k (Nat.lt_succ_of_lt hk))]
    simp [h m (Nat.lt_succ_self m)]

theorem smoothCount_clamped (s : ℚ) :
    (smoothCount s : ℤ) = ⌊4 * clamp_f s 0 1⌋ := by
  have hbs : 0 ≤ clamp_f s 0 1 := clamp_f_ge s 0 1 (by norm_num)
  have h4 : (0 : ℚ) ≤ clamp_f s 0 1 * (max_iterations : ℚ) := by
    have : (0 : ℚ) ≤ (max_iterations : ℚ) := by norm_num [max_iterations]
    exact mul_nonneg hbs this
  unfold smoothCount
  rw [cIntOfRat_nonneg _ h4]
  have hfl : (0 : ℤ) ≤ ⌊clamp_f s 0 1 * (max_iterations : ℚ)⌋ :=
    Int.floor_nonneg.mpr h4
  rw [Int.toNat_of_nonneg hfl]
  norm_num [max_iterations, mul_comm]

theorem smoothLast_eq_fract (s : ℚ) :
    smoothLast s = Int.fract (4 * clamp_f s 0 1) := by
  have hcq : ((smoothCount s : ℕ) : ℚ) = ((⌊4 * clamp_f s 0 1⌋ : ℤ) : ℚ) := by
    exact_mod_cast smoothCount_clamped s
  have h4 : (max_iterations : ℚ) = 4 := by norm_num [max_iterations]
  unfold smoothLast Int.fract
  rw [h4, hcq]
  ring

theorem smoothLast_nonneg (s : ℚ) : 0 ≤ smoothLast s := by
  rw [smoothLast_eq_fract]
  exact Int.fract_nonneg _

theorem smoothLast_lt_one (s : ℚ) : smoothLast s < 1 := by
  rw [smoothLast_eq_fract]
  exact Int.fract_lt_one _

theorem smoothStrengths_sum (s : ℚ) :
    (smoothStrengths s).sum = (smoothCount s : ℚ) * 1 + smoothLast s := by
  unfold smoothStrengths
  rw [List.range_succ, List.map_append, List.sum_append]
  have h1 : ∀ k < smoothCount s, iterStrength s k = 1 := by
    intro k hk
    unfold iterStrength
    rw [if_pos (Nat.ne_of_lt hk)]
  rw [sum_map_range_one (smoothCount s) (iterStrength s) h1]
  have h2 : iterStrength s (smoothCount s) = smoothLast s := by
    unfold iterStrength
    simp
  simp [h2]

/-- C1: for every strength `s` clamped to `[0,1]`, `SCULPT_smooth`
computes `count = floor(4·s)` and `last = 4·(s − count/4)`; it runs
iterations `k = 0..count` inclusive with per-iteration strength `1.0`
for `k < count` and `last` for `k = count`, so the applied strengths sum
to `count·1.0 + last` with `last ∈ [0,1)`; at `s = 1` `count = 4` and
`last = 0`, and at `s = 1/4` `count = 1` and `last = 0`. -/
theorem C1_iteration_count_law (s : ℚ) :
    (smoothCount s : ℤ) = ⌊4 * clamp_f s 0 1⌋ ∧
    smoothLast s = 4 * (clamp_f s 0 1 - (smoothCount s : ℚ) / 4) ∧
    (∀ k, k < smoothCount s → iterStrength s k = 1) ∧
    iterStrength s (smoothCount s) = smoothLast s ∧
    (smoothStrengths s).sum = (smoothCount s : ℚ) * 1 + smoothLast s ∧
    0 ≤ smoothLast s ∧ smoothLast s < 1 ∧
    smoothCount 1 = 4 ∧ smoothLast 1 = 0 ∧
    smoothCount (1 / 4) = 1 ∧ smoothLast (1 / 4) = 0 := by
  have hc1 : smoothCount 1 = 4 := by
    norm_num [smoothCount, cIntOfRat, clamp_f]
    rfl
  have hc4 : smoothCount (1 / 4 : ℚ) = 1 := by
    norm_num [smoothCount, cIntOfRat, clamp_f, max_iterations]
  have hl1 : smoothLast 1 = 0 := by
    unfold smoothLast
    rw [hc1]
    norm_num [clamp_f, max_iterations]
  have hl4 : smoothLast (1 / 4 : ℚ) = 0 := by
    unfold smoothLast
    rw [hc4]
    norm_num [clamp_f, max_iterations]
  refine ⟨smoothCount_clamped s, ?_, ?_, ?_, smoothStrengths_sum s,
    smoothLast_nonneg s, smoothLast_lt_one s, hc1, hl1, hc4, hl4⟩
  · unfold smoothLast
    norm_num [max_iterations]
    ring
  · intro k hk
    unfold iterStrength
    rw [if_pos (Nat.ne_of_lt hk)]
  · unfold iterStrength
    simp

theorem smoothCount_half : smoothCount (1 / 2 : ℚ) = 2 := by
  norm_num [smoothCount, cIntOfRat, clamp_f, max_iterations]
  rfl

/-- Witness for C1 at the concrete strength `s = 1/2` and iteration
`k = 1` (there `count = 2`). -/
theorem C1_iteration_count_law_witness :
    iterStrength (1 / 2) 1 = 1 ∧
    (smoothStrengths (1 / 2)).sum = (smoothCount (1 / 2) : ℚ) * 1 + smoothLast (1 / 2) :=
  ⟨(C1_iteration_count_law (1 / 2)).2.2.1 1
      (lt_of_lt_of_eq Nat.one_lt_two smoothCount_half.symm),
    (C1_iteration_count_law (1 / 2)).2.2.2.2.1⟩

/-- C2: with zero neighbors, `SCULPT_neighbor_coords_average`,
`SCULPT_neighbor_mask_average`, `SCULPT_neighbor_color_average` and
`SCULPT_neighbor_coords_average_interior` all return the vertex's own
current value; and whenever the boundary filtering of the interior
variant leaves zero contributing neighbors, it returns the vertex's own
coordinate — never a division by zero. -/
theorem C2_zero_neighbor_identity (ss : SculptSession) (i : SculptIdx) :
    (ss.neighbors i = [] →
      SCULPT_neighbor_coords_average ss i = ss.co i ∧
      SCULPT_neighbor_mask_average ss i = ss.mask i ∧
      SCULPT_neighbor_color_average ss i = ss.color i ∧
      SCULPT_neighbor_coords_average_interior ss i = ss.co i) ∧
    ((interiorAccum ss i).2 = 0 →
      SCULPT_neighbor_coords_average_interior ss i = ss.co i) := by
  constructor
  · intro h
    refine ⟨?_, ?_, ?_, ?_⟩
    · simp [SCULPT_neighbor_coords_average, h]
    · simp [SCULPT_neighbor_mask_average, h]
    · simp [SCULPT_neighbor_color_average, h]
    · simp [SCULPT_neighbor_coords_average_interior, h]
  · intro h
    unfold SCULPT_neighbor_coords_average_interior
    simp [h]

/-- A concrete session whose vertices have no neighbors. -/
def lonelySession : SculptSession where
  neighbors := fun _ => []
  co := fun _ => ⟨1, 2, 3⟩
  mask := fun _ => 1 / 2
  color := fun _ => ⟨1, 0, 0, 1⟩
  is_boundary := fun _ => false

/-- Witness for C2 at a concrete zero-neighbor vertex. -/
theorem C2_zero_neighbor_identity_witness :
    (SCULPT_neighbor_coords_average lonelySession 0 = lonelySession.co 0 ∧
      SCULPT_neighbor_mask_average lonelySession 0 = lonelySession.mask 0 ∧
      SCULPT_neighbor_color_average lonelySession 0 = lonelySession.color 0 ∧
      SCULPT_neighbor_coords_average_interior lonelySession 0 = lonelySession.co 0) ∧
    SCULPT_neighbor_coords_average_interior lonelySession 0 = lonelySession.co 0 :=
  ⟨(C2_zero_neighbor_identity lonelySession 0).1 rfl,
    (C2_zero_neighbor_identity lonelySession 0).2 rfl⟩

/-- C3: a vertex with two or fewer total neighbors is returned unchanged
by `SCULPT_neighbor_coords_average_interior`, regardless of any boundary
classification. -/
theorem C3_corner_preservation (ss : SculptSession) (i : SculptIdx)
    (h : (ss.neighbors i).length ≤ 2) :
    SCULPT_neighbor_coords_average_interior ss i = ss.co i := by
  unfold SCULPT_neighbor_coords_average_interior
  simp [h]

/-- A concrete session whose vertex 0 has exactly two neighbors at
distinct positions, with mixed boundary classification. -/
def cornerSession : SculptSession where
  neighbors := fun v => if v = 0 then [1, 2] else []
  co := fun v => if v = 1 then ⟨5, 0, 0⟩ else if v = 2 then ⟨0, 5, 0⟩ else ⟨1, 1, 1⟩
  mask := fun _ => 0
  color := fun _ => ⟨0, 0, 0, 0⟩
  is_boundary := fun v => v = 2

/-- Witness for C3 at a concrete two-neighbor (corner) vertex. -/
theorem C3_corner_preservation_witness :
    SCULPT_neighbor_coords_average_interior cornerSession 0 = cornerSession.co 0 :=
  C3_corner_preservation cornerSession 0 (by decide)

theorem fourNeighborLoop_boundary (nrm : Vec3 → Vec3) (vco vno direction : Vec3)
    (edges : List IncidentEdge) (avg_co : Vec3) (tot_co : ℚ)
    (h : ∃ e ∈ edges, e.is_boundary = true) :
    fourNeighborLoop nrm vco vno direction edges avg_co tot_co = vco := by
  induction edges generalizing avg_co tot_co with
  | nil => simp at h
  | cons e rest ih =>
    by_cases hb : e.is_boundary
    · simp [fourNeighborLoop, hb]
    · obtain ⟨e', he', hbe'⟩ := h
      rcases List.mem_cons.mp he' with h1 | h2
      · exact absurd (h1 ▸ hbe') hb
      · simp only [fourNeighborLoop, if_neg hb]
        exact ih _ _ ⟨e', h2, hbe'⟩

/-- C4: a vertex with at least one boundary-incident edge is returned at
its own unmodified position by both `SCULPT_bmesh_four_neighbor_average`
and `SCULPT_trimesh_four_neighbor_average`. -/
theorem C4_boundary_short_circuit (nrm : Vec3 → Vec3) (direction : Vec3)
    (v : FourVert) (h : ∃ e ∈ v.edges, e.is_boundary = true) :
    SCULPT_bmesh_four_neighbor_average nrm direction v = v.co ∧
    SCULPT_trimesh_four_neighbor_average nrm direction v = v.co :=
  ⟨fourNeighborLoop_boundary nrm v.co v.no direction v.edges 0 0 h,
    fourNeighborLoop_boundary nrm v.co v.no direction v.edges 0 0 h⟩

/-- A non-boundary incident edge for the C4 witness vertex. -/
def fEdge : IncidentEdge := ⟨false, ⟨2, 0, 0⟩⟩

/-- A boundary incident edge for the C4 witness vertex. -/
def bEdge : IncidentEdge := ⟨true, ⟨0, 2, 0⟩⟩

/-- A concrete vertex with one interior and one boundary incident edge. -/
def boundaryFourVert : FourVert := ⟨⟨1, 2, 3⟩, ⟨0, 0, 1⟩, [fEdge, bEdge]⟩

/-- Witness for C4 at a concrete vertex with a boundary edge. -/
theorem C4_boundary_short_circuit_witness :
    SCULPT_bmesh_four_neighbor_average id ⟨1, 0, 0⟩ boundaryFourVert = boundaryFourVert.co ∧
    SCULPT_trimesh_four_neighbor_average id ⟨1, 0, 0⟩ boundaryFourVert = boundaryFourVert.co :=
  C4_boundary_short_circuit id ⟨1, 0, 0⟩ boundaryFourVert
    ⟨bEdge, List.mem_cons_of_mem fEdge (List.mem_cons_self bEdge []), rfl⟩

/-- A concrete vertex with no incident edges at a nonzero position. -/
def isolatedFourVert : FourVert := ⟨⟨1, 2, 3⟩, ⟨0, 0, 1⟩, []⟩

/-- Counterexample to C5 as stated: on a vertex with no incident edges
(total weight `0`), the four-neighbor average writes the zero vector,
which is not the vertex's own position. -/
theorem C5_counterexample :
    SCULPT_bmesh_four_neighbor_average id ⟨1, 0, 0⟩ isolatedFourVert = (0 : Vec3) ∧
    SCULPT_bmesh_four_neighbor_average id ⟨1, 0, 0⟩ isolatedFourVert ≠ isolatedFourVert.co := by
  constructor
  · simp [SCULPT_bmesh_four_neighbor_average, fourNeighborLoop, isolatedFourVert]
  · simp [SCULPT_bmesh_four_neighbor_average, fourNeighborLoop, isolatedFourVert,
      Vec3.zero_def]

theorem fourNeighborLoop_zero_weight (nrm : Vec3 → Vec3) (vco vno direction : Vec3)
    (edges : List IncidentEdge) (avg_co : Vec3) (tot_co : ℚ)
    (hnb : ∀ e ∈ edges, e.is_boundary = false)
    (hw : tot_co + fourNeighborTotWeight nrm vco vno direction edges ≤ 0) :
    fourNeighborLoop nrm vco vno direction edges avg_co tot_co = 0 := by
  induction edges generalizing avg_co tot_co with
  | nil =>
    simp only [fourNeighborTotWeight, add_zero] at hw
    simp only [fourNeighborLoop]
    rw [if_neg (not_lt.mpr hw)]
  | cons e rest ih =>
    have hb : e.is_boundary = false := hnb e (List.mem_cons_self e rest)
    simp only [fourNeighborLoop, hb, Bool.false_eq_true, if_false]
    simp only [fourNeighborTotWeight] at hw
    exact ih _ _ (fun e' he' => hnb e' (List.mem_cons_of_mem e he')) (by linarith)

/-- C5, amended: when the directional four-neighbor average accumulates
zero (or negative) total weight over non-boundary edges — including a
vertex with no incident edges — both variants write the ZERO VECTOR
`(0,0,0)` as the output (not the vertex's own position); no error is
propagated. -/
theorem C5_amended_zero_weight_zero_vector (nrm : Vec3 → Vec3) (direction : Vec3)
    (v : FourVert) (hnb : ∀ e ∈ v.edges, e.is_boundary = false)
    (hw : fourNeighborTotWeight nrm v.co v.no direction v.edges ≤ 0) :
    SCULPT_bmesh_four_neighbor_average nrm direction v = 0 ∧
    SCULPT_trimesh_four_neighbor_average nrm direction v = 0 := by
  have h0 : (0 : ℚ) + fourNeighborTotWeight nrm v.co v.no direction v.edges ≤ 0 := by
    rw [zero_add]
    exact hw
  exact ⟨fourNeighborLoop_zero_weight nrm v.co v.no direction v.edges 0 0 hnb h0,
    fourNeighborLoop_zero_weight nrm v.co v.no direction v.edges 0 0 hnb h0⟩

/-- Witness for the amended C5 at a concrete edge-less vertex. -/
theorem C5_amended_zero_weight_zero_vector_witness :
    SCULPT_bmesh_four_neighbor_average id ⟨0, 1, 0⟩ isolatedFourVert = 0 ∧
    SCULPT_trimesh_four_neighbor_average id ⟨0, 1, 0⟩ isolatedFourVert = 0 :=
  C5_amended_zero_weight_zero_vector id ⟨0, 1, 0⟩ isolatedFourVert
    (fun e he => absurd he (List.not_mem_nil e))
    (le_refl 0)

theorem Vec3.add_comm (a b : Vec3) : a + b = b + a := by
  cases a
  cases b
  simp [Vec3.add_def]
  constructor
  · ring
  · constructor
    · ring
    · ring

theorem Vec3.convex_one (origco co : Vec3) :
    (1 : ℚ) • origco + ((1 : ℚ) - 1) • co = origco := by
  cases origco
  cases co
  simp [Vec3.smul_def, Vec3.add_def]

/-- C6, amended: with shape-preservation `alpha = 1`, the predict pass's
target `d` collapses exactly to the original (pre-stroke) position, so
the stored correction is `laplacian_disp[v] = neighbor_average − origco`;
but the displacement the pass applies is `neighbor_average − co`
(independent of `alpha`), scaled by the clamped fade, so vertex positions
still move toward the neighbor average and are NOT left unchanged in
general. -/
theorem C6_amended_alpha_one_behavior (ss : SculptSession) (co origco : Vec3)
    (v : SculptIdx) (alpha fade : ℚ) :
    (SCULPT_surface_smooth_laplacian_step ss co v origco 1).2
        = SCULPT_neighbor_coords_average ss v - origco ∧
    (SCULPT_surface_smooth_laplacian_step ss co v origco alpha).1
        = SCULPT_neighbor_coords_average ss v - co ∧
    surfaceSmoothLaplacianUpdateCo ss co v origco 1 fade
        = co + clamp_f fade 0 1 • (SCULPT_neighbor_coords_average ss v - co) := by
  refine ⟨?_, rfl, rfl⟩
  show SCULPT_neighbor_coords_average ss v - ((1 : ℚ) • origco + ((1 : ℚ) - 1) • co)
      = SCULPT_neighbor_coords_average ss v - origco
  rw [Vec3.convex_one]

/-- A concrete session for the C6 counterexample: vertex 0 sits at the
origin with a single neighbor at `(1,0,0)`. -/
def lapSession : SculptSession where
  neighbors := fun v => if v = 0 then [1] else []
  co := fun v => if v = 1 then ⟨1, 0, 0⟩ else ⟨0, 0, 0⟩
  mask := fun _ => 0
  color := fun _ => ⟨0, 0, 0, 0⟩
  is_boundary := fun _ => false

/-- Counterexample to C6 as stated: with `alpha = 1` and full fade, the
Laplacian predict pass still moves vertex 0 (whose original and current
position is the origin) to `(1,0,0)` — positions are not unchanged. -/
theorem C6_counterexample :
    surfaceSmoothLaplacianUpdateCo lapSession ⟨0, 0, 0⟩ 0 ⟨0, 0, 0⟩ 1 1 = ⟨1, 0, 0⟩ ∧
    surfaceSmoothLaplacianUpdateCo lapSession ⟨0, 0, 0⟩ 0 ⟨0, 0, 0⟩ 1 1 ≠ ⟨0, 0, 0⟩ := by
  have h : surfaceSmoothLaplacianUpdateCo lapSession ⟨0, 0, 0⟩ 0 ⟨0, 0, 0⟩ 1 1 = ⟨1, 0, 0⟩ := by
    unfold surfaceSmoothLaplacianUpdateCo SCULPT_surface_smooth_laplacian_step
      SCULPT_neighbor_coords_average lapSession
    norm_num [clamp_f, Vec3.add_def, Vec3.sub_def, Vec3.smul_def, Vec3.zero_def, Vec3.zero]
    exact ⟨rfl, rfl, rfl⟩
  refine ⟨h, ?_⟩
  rw [h]
  intro hx
  have := congrArg Vec3.x hx
  norm_num at this

/-- The sum `Σ` of a list of vectors (for stating the displacement
formula the spec gives). -/
def vec3Sum (l : List Vec3) : Vec3 := l.foldl (fun a b => a + b) 0

/-- C7: for a vertex with at least one neighbor, the displacement-damping
step subtracts from the current position the vector
`beta·laplacian_disp[v] + ((1−beta)/N)·Σ laplacian_disp` over the
neighbors, scaled by the falloff-strength clamped to `[0,1]`, with `N`
the neighbor count. -/
theorem C7_displace_formula (ss : SculptSession) (co : Vec3)
    (laplacian_disp : SculptIdx → Vec3) (v : SculptIdx) (beta fade : ℚ)
    (h : 1 ≤ (ss.neighbors v).length) :
    SCULPT_surface_smooth_displace_step ss co laplacian_disp v beta fade =
      co - clamp_f fade 0 1 •
        (beta • laplacian_disp v +
          ((1 - beta) / ((ss.neighbors v).length : ℚ)) •
            vec3Sum ((ss.neighbors v).map laplacian_disp)) := by
  unfold SCULPT_surface_smooth_displace_step
  rw [if_pos (by omega : (ss.neighbors v).length > 0)]
  have hsum : vec3Sum ((ss.neighbors v).map laplacian_disp)
      = (ss.neighbors v).foldl (fun a ni => a + laplacian_disp ni) 0 := by
    unfold vec3Sum
    rw [List.foldl_map]
  rw [hsum, Vec3.add_comm]

/-- Witness for C7 at a concrete two-neighbor vertex. -/
theorem C7_displace_formula_witness :
    SCULPT_surface_smooth_displace_step cornerSession ⟨0, 0, 0⟩
        (fun i => ⟨(i : ℚ), 0, 0⟩) 0 (1 / 2) (1 / 2) =
      (⟨0, 0, 0⟩ : Vec3) - clamp_f (1 / 2) 0 1 •
        ((1 / 2 : ℚ) • (⟨(0 : ℚ), 0, 0⟩ : Vec3) +
          ((1 - 1 / 2) / ((cornerSession.neighbors 0).length : ℚ)) •
            vec3Sum ((cornerSession.neighbors 0).map (fun i => ⟨(i : ℚ), 0, 0⟩))) :=
  C7_displace_formula cornerSession ⟨0, 0, 0⟩ (fun i => ⟨(i : ℚ), 0, 0⟩) 0 (1 / 2) (1 / 2)
    (by decide)

theorem smoothCount_zero : smoothCount 0 = 0 := by
  norm_num [smoothCount, cIntOfRat, clamp_f, max_iterations]

theorem smoothLast_zero : smoothLast 0 = 0 := by
  unfold smoothLast
  rw [smoothCount_zero]
  norm_num [clamp_f, max_iterations]

theorem smoothBrushVertex_zero_strength (test : Vec3 → Bool) (factor : SculptIdx → ℚ)
    (ss : SculptSession) (sm : Bool) (v : SculptIdx)
    (h0 : 0 ≤ ss.mask v) (h1 : ss.mask v ≤ 1) :
    smoothBrushVertex test factor ss 0 sm v = (ss.co v, ss.mask v) := by
  unfold smoothBrushVertex
  have hcl : clamp_f 0 0 1 = 0 := clamp_f_of_mem 0 0 1 (le_refl 0) zero_le_one
  rw [hcl]
  by_cases ht : test (ss.co v) = true
  · rw [if_pos ht]
    by_cases hs : sm = true
    · rw [if_pos hs]
      simp only [zero_mul, mul_zero, add_zero]
      rw [clamp_f_of_mem (ss.mask v) 0 1 h0 h1]
    · rw [if_neg hs]
      unfold SCULPT_clip
      simp only [zero_mul, Vec3.add_zero_smul]
  · rw [if_neg ht]

/-- C8: calling `SCULPT_smooth` with strength `0` yields `count = 0` and
`last = 0`, and (for any vertex whose mask satisfies the `[0,1]` mask
invariant) leaves that vertex's position and mask exactly unchanged: the
call is an identity on mesh state. -/
theorem C8_zero_strength_identity (pbvh_type : PBVHType) (pmap_present : Bool)
    (test : Vec3 → Bool) (factor : SculptIdx → ℚ) (sm : Bool)
    (ss : SculptSession) (v : SculptIdx)
    (h0 : 0 ≤ ss.mask v) (h1 : ss.mask v ≤ 1) :
    smoothCount 0 = 0 ∧ smoothLast 0 = 0 ∧
    (SCULPT_smooth pbvh_type pmap_present test factor 0 sm ss).2.co v = ss.co v ∧
    (SCULPT_smooth pbvh_type pmap_present test factor 0 sm ss).2.mask v = ss.mask v := by
  have hloop : smoothIterLoop test factor 0 sm ss
      = smoothMeshStep test factor 0 sm ss := by
    unfold smoothIterLoop
    rw [smoothCount_zero]
    have hstr : iterStrength 0 0 = 0 := by
      unfold iterStrength
      rw [smoothCount_zero]
      simp [smoothLast_zero]
    simp [List.range_succ, hstr]
  have hco : (smoothMeshStep test factor 0 sm ss).co v = ss.co v := by
    unfold smoothMeshStep
    simp only []
    rw [smoothBrushVertex_zero_strength test factor ss sm v h0 h1]
  have hmask : (smoothMeshStep test factor 0 sm ss).mask v = ss.mask v := by
    unfold smoothMeshStep
    simp only []
    rw [smoothBrushVertex_zero_strength test factor ss sm v h0 h1]
  refine ⟨smoothCount_zero, smoothLast_zero, ?_, ?_⟩
  · unfold SCULPT_smooth
    split
    · rfl
    · rw [hloop]
      exact hco
  · unfold SCULPT_smooth
    split
    · rfl
    · rw [hloop]
      exact hmask

/-- Witness for C8 at a concrete session and vertex with mask `1/2`. -/
theorem C8_zero_strength_identity_witness :
    (SCULPT_smooth PBVHType.grids true (fun _ => true) (fun _ => 1) 0 true
        lonelySession).2.co 0 = lonelySession.co 0 ∧
    (SCULPT_smooth PBVHType.grids true (fun _ => true) (fun _ => 1) 0 true
        lonelySession).2.mask 0 = lonelySession.mask 0 :=
  ⟨(C8_zero_strength_identity PBVHType.grids true (fun _ => true) (fun _ => 1) true
      lonelySession 0 (by norm_num [lonelySession]) (by norm_num [lonelySession])).2.2.1,
    (C8_zero_strength_identity PBVHType.grids true (fun _ => true) (fun _ => 1) true
      lonelySession 0 (by norm_num [lonelySession]) (by norm_num [lonelySession])).2.2.2⟩

/-- C9: invoking `SCULPT_smooth` on a `PBVH_FACES` mesh whose `pmap` is
missing reports the fatal assertion and returns before dispatching any
smoothing work: the session state is returned unchanged. -/
theorem C9_pmap_missing_noop (pmap_present : Bool) (test : Vec3 → Bool)
    (factor : SculptIdx → ℚ) (bstrength : ℚ) (sm : Bool) (ss : SculptSession)
    (hp : pmap_present = false) :
    SCULPT_smooth PBVHType.faces pmap_present test factor bstrength sm ss = (true, ss) := by
  unfold SCULPT_smooth
  rw [if_pos ⟨rfl, hp⟩]

/-- Witness for C9 at a concrete call. -/
theorem C9_pmap_missing_noop_witness :
    SCULPT_smooth PBVHType.faces false (fun _ => true) (fun _ => 1) (1 / 2) false
      lonelySession = (true, lonelySession) :=
  C9_pmap_missing_noop false (fun _ => true) (fun _ => 1) (1 / 2) false lonelySession rfl

/-- C10: in mask-smoothing mode, the mask value the kernel writes for
every processed (brush-test-passing) vertex is clamped to `[0,1]`, so
the mask invariant is preserved by every mask-smoothing dispatch. -/
theorem C10_mask_invariant (test : Vec3 → Bool) (factor : SculptIdx → ℚ)
    (strength : ℚ) (ss : SculptSession) (v : SculptIdx)
    (ht : test (ss.co v) = true) :
    0 ≤ (smoothMeshStep test factor strength true ss).mask v ∧
    (smoothMeshStep test factor strength true ss).mask v ≤ 1 := by
  unfold smoothMeshStep smoothBrushVertex
  simp only [ht, if_true, if_pos]
  exact ⟨clamp_f_ge _ 0 1 zero_le_one, clamp_f_le _ 0 1 zero_le_one⟩

/-- Witness for C10 at a concrete processed vertex. -/
theorem C10_mask_invariant_witness :
    0 ≤ (smoothMeshStep (fun _ => true) (fun _ => 1) 1 true lonelySession).mask 0 ∧
    (smoothMeshStep (fun _ => true) (fun _ => 1) 1 true lonelySession).mask 0 ≤ 1 :=
  C10_mask_invariant (fun _ => true) (fun _ => 1) 1 lonelySession 0 rfl
